import Mathlib

/-!
A verification development for the transactional metadata catalog
(`MDBCatalog`, `src/mongo/db/storage/mdb_catalog.cpp`).

The catalog keeps an in-memory entry index (`_catalogIdToEntryMap`, a
`std::map<RecordId, EntryIdentifier>` guarded by a mutex) consistent with a
persisted record store across add/import/remove/rename mutations, registering
rollback handlers with the recovery unit so that an aborted transaction
restores the in-memory cache.

Modelling choices (shallow embedding):
* `RecordId` is `Nat` (record ids are allocated monotonically by the store).
* `NamespaceString` is `String`; the tenant-aware parse function
  (`NamespaceStringUtil::parseFromStringExpectTenantIdInMultitenancyMode`)
  is the identity on this model.
* BSON documents are finite lists of named fields whose values are strings,
  sub-objects, or some other scalar (`BSONValue.other`); this is all the
  catalog code inspects.
* The ordered `std::map` is a key-sorted association list, so equality of
  map states is literal list equality, matching `std::map` content equality.
* Fallible record-store calls (`insertRecord`, `updateRecord`) take an
  injected `Option ErrCode` fault standing for the external store's
  WriteConflict / OutOfDiskSpace failures, which the catalog propagates
  verbatim and never retries.
* `invariant` / `fassert` / `tassert` failures are modelled as a distinguished
  fatal outcome (process death), not a returned `Status`.
* Rollback closures registered on the recovery unit are reified as `Change`
  values whose `rollback` function is translated from each closure body.
-/

/-- Recoverable error codes surfaced by the catalog or the external store.
`typeMismatch` stands for the `uassert` exceptions thrown by
`BSONElement::String()` / `BSONElement::Obj()` on a wrongly-typed element. -/
inductive ErrCode where
  | namespaceNotFound
  | writeConflict
  | outOfDiskSpace
  | typeMismatch
  | dataCorruption
deriving DecidableEq, Repr

/-- BSON values, restricted to what the catalog code inspects: strings
(`ident`, `ns`, index idents), embedded objects (`idxIdent`), and a stand-in
for any other scalar type. -/
inductive BSONValue where
  | str (s : String)
  | obj (fields : List (String × BSONValue))
  | other
deriving Repr

/-- A BSON document: an ordered list of named fields. -/
abbrev BSONObj := List (String × BSONValue)

/-- Field access `obj["name"]`: the first field with the given name, `none`
standing for an EOO element (field absent). -/
def bsonField (o : BSONObj) (name : String) : Option BSONValue :=
  match o with
  | [] => none
  | (n, v) :: rest => if n = name then some v else bsonField rest name

/-- `BSONElement::String()`: succeeds only on a string element, otherwise
throws a type-mismatch exception. -/
def elemString (e : Option BSONValue) : Except ErrCode String :=
  match e with
  | some (.str s) => .ok s
  | _ => .error .typeMismatch

/-- `BSONElement::isABSONObj()`: whether the element exists and is an object. -/
def isObjElem (e : Option BSONValue) : Bool :=
  match e with
  | some (.obj _) => true
  | _ => false

/-- `BSONElement::Obj()`: succeeds only on an object element, otherwise
throws (also on a missing/EOO element). -/
def elemObj (e : Option BSONValue) : Except ErrCode BSONObj :=
  match e with
  | some (.obj o) => .ok o
  | _ => .error .typeMismatch

/-- `MDBCatalog::EntryIdentifier`: catalogId, ident and namespace of one
catalog row. -/
structure EntryIdentifier where
  catalogId : Nat
  ident : String
  nss : String
deriving DecidableEq, Repr

/-- The in-memory entry index `_catalogIdToEntryMap`
(`std::map<RecordId, EntryIdentifier>`), modelled as a key-sorted
association list. -/
abbrev EMap := List (Nat × EntryIdentifier)

/-- `std::map::find`. -/
def mapFind (m : EMap) (k : Nat) : Option EntryIdentifier :=
  match m with
  | [] => none
  | (k', v) :: rest => if k' = k then some v else mapFind rest k

/-- `std::map::operator[]` followed by assignment (insert-or-assign),
keeping the list sorted by key. -/
def mapInsert (m : EMap) (k : Nat) (v : EntryIdentifier) : EMap :=
  match m with
  | [] => [(k, v)]
  | (k', v') :: rest =>
    if k < k' then (k, v) :: (k', v') :: rest
    else if k' = k then (k, v) :: rest
    else (k', v') :: mapInsert rest k v

/-- `std::map::erase(key)`: removes the (unique, given sortedness) matching
entry. -/
def mapErase (m : EMap) (k : Nat) : EMap :=
  match m with
  | [] => []
  | (k', v') :: rest => if k' = k then rest else (k', v') :: mapErase rest k

/-- In-place namespace assignment `it->second.nss = toNss` at key `k`.
(`std::map::find` locates at most one entry; on a well-formed, duplicate-free
map this recursive form assigns exactly that entry.) -/
def mapAssignNss (m : EMap) (k : Nat) (nss : String) : EMap :=
  match m with
  | [] => []
  | (k', v') :: rest =>
    if k' = k then (k', { v' with nss := nss }) :: mapAssignNss rest k nss
    else (k', v') :: mapAssignNss rest k nss

/-- Well-formedness of the entry index: strictly increasing keys (the
canonical representation of a `std::map`). -/
def WFMap (m : EMap) : Prop :=
  List.Pairwise (fun a b : Nat × EntryIdentifier => a.1 < b.1) m

instance (m : EMap) : Decidable (WFMap m) := by
  unfold WFMap; infer_instance

/-- The persisted catalog record store `_rs`: records keyed by `RecordId`,
with a monotone allocator for new ids. -/
structure RecordStoreState where
  records : List (Nat × BSONObj)
  nextId : Nat
deriving Repr

/-- `SeekableRecordCursor::seekExact`. -/
def seekExact (rs : RecordStoreState) (k : Nat) : Option BSONObj :=
  match rs.records with
  | _ => lookupRec rs.records k
where
  lookupRec : List (Nat × BSONObj) → Nat → Option BSONObj
  | [], _ => none
  | (k', o) :: rest, k => if k' = k then some o else lookupRec rest k

/-- `RecordStore::insertRecord`: on the injected fault, propagates the store
error verbatim; otherwise allocates the next record id. -/
def insertRecord (rs : RecordStoreState) (data : BSONObj) (fault : Option ErrCode) :
    Except ErrCode (Nat × RecordStoreState) :=
  match fault with
  | some c => .error c
  | none => .ok (rs.nextId, ⟨rs.records ++ [(rs.nextId, data)], rs.nextId + 1⟩)

/-- `RecordStore::updateRecord` (the success path; the fault case is handled
at each call site, where the catalog `fassert`s on failure). -/
def updateRecord (rs : RecordStoreState) (k : Nat) (data : BSONObj) : RecordStoreState :=
  { rs with records := rs.records.map (fun p => if p.1 = k then (k, data) else p) }

/-- `RecordStore::deleteRecord`. -/
def deleteRecord (rs : RecordStoreState) (k : Nat) : RecordStoreState :=
  { rs with records := rs.records.filter (fun p => p.1 ≠ k) }

/-- A rollback handler registered on the recovery unit, reified as data.
Each constructor corresponds to one closure (or `Change` subclass) in the
source; its semantics is `Change.rollback` below. -/
inductive Change where
  /-- `MDBCatalog::AddIdentChange::rollback`: erase `catalogId` from the map. -/
  | addIdent (catalogId : Nat)
  /-- `removeEntry`'s `onRollback` closure: `_catalogIdToEntryMap[catalogId] = entry`. -/
  | reinsert (catalogId : Nat) (entry : EntryIdentifier)
  /-- `putRenamedEntry`'s `onRollback` closure: find `catalogId` (invariant it
  exists) and restore `nss` to `fromNss`. -/
  | renameBack (catalogId : Nat) (fromNss : String)
  /-- `initializeNewEntry`'s `onRollback` closure:
  `_engine->dropIdent(...).ignore()`. -/
  | dropIdent (ident : String)
  /-- `importCatalogEntry`'s `onRollback` closure: `dropIdentForImport` for the
  collection ident and each index ident. -/
  | dropImport (ident : String) (indexIdents : List String)
deriving Repr

/-- Effect of a rollback handler on the entry index; `none` is a fatal
`invariant` failure inside the handler. -/
def Change.rollbackMap : Change → EMap → Option EMap
  | .addIdent k, m => some (mapErase m k)
  | .reinsert k e, m => some (mapInsert m k e)
  | .renameBack k fromNss, m =>
    match mapFind m k with
    | none => none
    | some _ => some (mapAssignNss m k fromNss)
  | .dropIdent _, m => some m
  | .dropImport _ _, m => some m

/-- Effect of a rollback handler on the set of live physical idents in the
storage engine (dropIdent / dropIdentForImport; best-effort, never fails). -/
def Change.rollbackEngine : Change → List String → List String
  | .addIdent _, eng => eng
  | .reinsert _ _, eng => eng
  | .renameBack _ _, eng => eng
  | .dropIdent i, eng => eng.filter (· ≠ i)
  | .dropImport i idxs, eng => idxs.foldl (fun e j => e.filter (· ≠ j)) (eng.filter (· ≠ i))

/-- Combined system state: the persisted store, the in-memory entry index,
the set of live physical idents, and the recovery unit's registered rollback
handlers (most recently registered first). -/
structure SysState where
  rs : RecordStoreState
  map : EMap
  engine : List String
  changes : List Change
deriving Repr

/-- Running one rollback handler: each closure touches only the entry index
and/or the engine's physical idents — never the persisted store. -/
def Change.rollback (c : Change) (s : SysState) : Option SysState :=
  match c.rollbackMap s.map with
  | none => none
  | some m => some { s with map := m, engine := c.rollbackEngine s.engine }

/-- Transaction abort: run the registered handlers in reverse registration
order (the list is most-recent-first), then discard them. -/
def abortChanges : List Change → SysState → Option SysState
  | [], s => some s
  | c :: cs, s =>
    match c.rollback s with
    | none => none
    | some s' => abortChanges cs s'

/-- Outcome of a catalog operation: a fatal `invariant`/`fassert`/`tassert`
failure, or a returned `StatusWith` together with the resulting state (an
error return can still leave registered handlers and cache mutations behind,
to be undone at abort). -/
inductive OpOut (α : Type) where
  | fatal
  | out (r : Except ErrCode α) (s : SysState)
deriving Repr

/-- `MDBCatalog::getEntry`: look up the entry index under the mutex;
`invariant` the id is present (`none` = fatal). -/
def getEntry (s : SysState) (k : Nat) : Option EntryIdentifier :=
  mapFind s.map k

/-- `MDBCatalog::_findRawEntry`: `seekExact`, returning the empty `BSONObj`
when the record does not exist. -/
def findRawEntry (rs : RecordStoreState) (k : Nat) : BSONObj :=
  match seekExact rs k with
  | none => []
  | some obj => obj

/-- `MDBCatalog::getIndexIdent`: read the raw row, take `obj["idxIdent"].Obj()`
(throws on missing/non-object), and if that object is non-empty take
`idxIdent[idxName].String()`; an empty `idxIdent` yields the empty string. -/
def getIndexIdent (s : SysState) (k : Nat) (idxName : String) : Except ErrCode String :=
  match elemObj (bsonField (findRawEntry s.rs k) "idxIdent") with
  | .error c => .error c
  | .ok idxIdent =>
    if idxIdent.isEmpty then .ok ""
    else elemString (bsonField idxIdent idxName)

/-- The `BSONObjIterator` loop of `_getIndexIdents`: each element's
`String()` pushed in field order, the first type mismatch propagating as a
thrown exception. -/
def identStrings : List (String × BSONValue) → Except ErrCode (List String)
  | [] => .ok []
  | p :: rest =>
    match elemString (some p.2) with
    | .error c => .error c
    | .ok s =>
      match identStrings rest with
      | .error c => .error c
      | .ok l => .ok (s :: l)

/-- `MDBCatalog::_getIndexIdents`: empty when `idxIdent` is EOO, otherwise
`Obj()` (throws on a non-object) and each element's `String()` in field
order. -/
def getIndexIdentsOf (rawCatalogEntry : BSONObj) : Except ErrCode (List String) :=
  match bsonField rawCatalogEntry "idxIdent" with
  | none => .ok []
  | some e =>
    match elemObj (some e) with
    | .error c => .error c
    | .ok idxIdent => identStrings idxIdent

/-- `MDBCatalog::getIndexIdents`: raw row lookup followed by
`_getIndexIdents`. -/
def getIndexIdents (s : SysState) (k : Nat) : Except ErrCode (List String) :=
  getIndexIdentsOf (findRawEntry s.rs k)

/-- Result of `MDBCatalog::getNSSFromCatalog`: a namespace, a thrown
type-mismatch exception, or the fatal `tassert(9117800)`. -/
inductive NssOut where
  | fatal
  | err (c : ErrCode)
  | ok (nss : String)
deriving DecidableEq, Repr

/-- `MDBCatalog::getNSSFromCatalog`: entry-index hit under the mutex, else a
point read of the store at the current snapshot (`_findRawEntry`); a
non-empty row yields `obj["ns"].String()`, otherwise `tassert` (fatal). -/
def getNSSFromCatalog (s : SysState) (k : Nat) : NssOut :=
  match mapFind s.map k with
  | some e => .ok e.nss
  | none =>
    let obj := findRawEntry s.rs k
    if obj.isEmpty then .fatal
    else
      match elemString (bsonField obj "ns") with
      | .ok ns => .ok ns
      | .error c => .err c

/-- `MDBCatalog::_addEntry`: insert the row into the store (propagating a
failed status with no state change), then under the mutex `invariant` the new
id is not already in the entry index, insert the `EntryIdentifier`, and
register an `AddIdentChange`. -/
def addEntryRaw (s : SysState) (ident nss : String) (row : BSONObj)
    (insertFault : Option ErrCode) : OpOut EntryIdentifier :=
  match insertRecord s.rs row insertFault with
  | .error c => .out (.error c) s
  | .ok (rid, rs') =>
    match mapFind s.map rid with
    | some _ => .fatal
    | none =>
      let e : EntryIdentifier := ⟨rid, ident, nss⟩
      .out (.ok e)
        { s with rs := rs', map := mapInsert s.map rid e,
                 changes := .addIdent rid :: s.changes }

/-- `MDBCatalog::addOrphanedEntry`: a direct forward to `_addEntry`. -/
def addOrphanedEntry (s : SysState) (ident nss : String) (row : BSONObj)
    (insertFault : Option ErrCode) : OpOut EntryIdentifier :=
  addEntryRaw s ident nss row insertFault

/-- `MDBCatalog::initializeNewEntry`: `_addEntry`, then
`_engine->createRecordStore` (a failed status is returned with the catalog
mutation left to the abort machinery), then an `onRollback` closure dropping
the new ident, then `getRecordStore` (always succeeds in this model). -/
def initNewEntry (s : SysState) (ident nss : String) (row : BSONObj)
    (insertFault createFault : Option ErrCode) : OpOut Nat :=
  match addEntryRaw s ident nss row insertFault with
  | .fatal => .fatal
  | .out (.error c) s1 => .out (.error c) s1
  | .out (.ok e) s1 =>
    match createFault with
    | some c => .out (.error c) s1
    | none =>
      .out (.ok e.catalogId)
        { s1 with engine := e.ident :: s1.engine,
                  changes := .dropIdent e.ident :: s1.changes }

/-- `MDBCatalog::_importEntry`: `invariant` the database is locked MODE_IX,
read `catalogEntry["ident"].String()` (throws on a bad element), insert into
the store, then as `_addEntry`: duplicate-id `invariant`, map insert,
`AddIdentChange`. -/
def importEntryRaw (s : SysState) (nss : String) (row : BSONObj)
    (dbLockedIX : Bool) (insertFault : Option ErrCode) : OpOut EntryIdentifier :=
  match dbLockedIX with
  | false => .fatal
  | true =>
    match elemString (bsonField row "ident") with
    | .error c => .out (.error c) s
    | .ok ident =>
      match insertRecord s.rs row insertFault with
      | .error c => .out (.error c) s
      | .ok (rid, rs') =>
        match mapFind s.map rid with
        | some _ => .fatal
        | none =>
          let e : EntryIdentifier := ⟨rid, ident, nss⟩
          .out (.ok e)
            { s with rs := rs', map := mapInsert s.map rid e,
                     changes := .addIdent rid :: s.changes }

/-- `MDBCatalog::importCatalogEntry`: `_importEntry`, then `_getIndexIdents`
on the supplied row, then an `onRollback` closure dropping (for import) the
collection ident and every index ident, then `importRecordStore` and
`importSortedDataInterface` per index (failed statuses are returned with the
handlers left registered), then `getRecordStore`. -/
def importCatalogEntry (s : SysState) (nss : String) (row : BSONObj)
    (dbLockedIX : Bool) (insertFault importRSFault importSDIFault : Option ErrCode) :
    OpOut Nat :=
  match importEntryRaw s nss row dbLockedIX insertFault with
  | .fatal => .fatal
  | .out (.error c) s1 => .out (.error c) s1
  | .out (.ok e) s1 =>
    match getIndexIdentsOf row with
    | .error c => .out (.error c) s1
    | .ok indexIdents =>
      let s2 := { s1 with changes := .dropImport e.ident indexIdents :: s1.changes }
      match importRSFault with
      | some c => .out (.error c) s2
      | none =>
        let s3 := { s2 with engine := e.ident :: s2.engine }
        match importSDIFault with
        | some c =>
          match indexIdents.isEmpty with
          | true => .out (.ok e.catalogId) s3
          | false => .out (.error c) s3
        | none =>
          .out (.ok e.catalogId)
            { s3 with engine := indexIdents.foldl (fun eng i => i :: eng) s3.engine }

/-- `MDBCatalog::removeEntry`: under the mutex, a missing id returns a typed
`NamespaceNotFound` status with nothing changed; otherwise register an
`onRollback` closure re-inserting the captured entry, delete the persisted
row, and erase the map entry. -/
def removeEntry (s : SysState) (k : Nat) : OpOut Unit :=
  match mapFind s.map k with
  | none => .out (.error .namespaceNotFound) s
  | some e =>
    .out (.ok ())
      { s with rs := deleteRecord s.rs k, map := mapErase s.map k,
               changes := .reinsert k e :: s.changes }

/-- `MDBCatalog::putRenamedEntry`: `updateRecord` the persisted row
(`fassert(28522)` on failure — fatal), then under the mutex `invariant` the
id is present, capture the old namespace, assign the new one, and register an
`onRollback` closure restoring the old namespace. -/
def putRenamedEntry (s : SysState) (k : Nat) (toNss : String) (row : BSONObj)
    (updateFault : Option ErrCode) : OpOut Unit :=
  match updateFault with
  | some _ => .fatal
  | none =>
    let rs' := updateRecord s.rs k row
    match mapFind s.map k with
    | none => .fatal
    | some e =>
      .out (.ok ())
        { s with rs := rs', map := mapAssignNss s.map k toNss,
                 changes := .renameBack k e.nss :: s.changes }

/-- Observable lock / persisted-store-I/O events of one catalog operation, in
program order. `io` covers `insertRecord` / `updateRecord` / `deleteRecord` /
cursor reads on `_rs`; `lock` / `unlock` are acquisition and release of
`_catalogIdToEntryMapLock`. A trace ending while the mutex is held is one
that died at a fatal `invariant` inside the critical section. -/
inductive Event where
  | lock
  | unlock
  | io
deriving DecidableEq, Repr

/-- Whether a trace performs no store I/O while the mutex is held
(depth-counting scan). -/
def noIOWhileLockedFrom : List Event → Nat → Bool
  | [], _ => true
  | .lock :: es, d => noIOWhileLockedFrom es (d + 1)
  | .unlock :: es, d => noIOWhileLockedFrom es (d - 1)
  | .io :: es, d => decide (d = 0) && noIOWhileLockedFrom es d

def noIOWhileLocked (es : List Event) : Bool :=
  noIOWhileLockedFrom es 0

/-- Event trace of `_addEntry`: `insertRecord` first, the mutex taken only
afterwards, around the pure map insert. -/
def addEntryEvents (s : SysState) (insertFault : Option ErrCode) : List Event :=
  match insertFault with
  | some _ => [.io]
  | none =>
    match mapFind s.map s.rs.nextId with
    | some _ => [.io, .lock]
    | none => [.io, .lock, .unlock]

/-- Event trace of `_importEntry` (the lock-mode `invariant` and the `ident`
field read precede any I/O). -/
def importEntryEvents (s : SysState) (row : BSONObj) (dbLockedIX : Bool)
    (insertFault : Option ErrCode) : List Event :=
  match dbLockedIX with
  | false => []
  | true =>
    match elemString (bsonField row "ident") with
    | .error _ => []
    | .ok _ => addEntryEvents s insertFault

/-- Event trace of `removeEntry`: the mutex is taken at function entry and
— on the present-key path — `deleteRecord` runs before it is released
(`mdb_catalog.cpp:279` scopes the `lock_guard` over the `deleteRecord` call
at `mdb_catalog.cpp:296`). -/
def removeEntryEvents (s : SysState) (k : Nat) : List Event :=
  match mapFind s.map k with
  | none => [.lock, .unlock]
  | some _ => [.lock, .io, .unlock]

/-- Event trace of `putRenamedEntry`: `updateRecord` before the mutex. -/
def putRenamedEntryEvents (s : SysState) (k : Nat) (updateFault : Option ErrCode) :
    List Event :=
  match updateFault with
  | some _ => [.io]
  | none =>
    match mapFind s.map k with
    | none => [.io, .lock]
    | some _ => [.io, .lock, .unlock]

/-- Event trace of `getEntry` (map lookup only, under the mutex). -/
def getEntryEvents (s : SysState) (k : Nat) : List Event :=
  match mapFind s.map k with
  | none => [.lock]
  | some _ => [.lock, .unlock]

/-- Event trace of `getNSSFromCatalog`: the lock scope closes before the
fallback store read. -/
def getNSSEvents (s : SysState) (k : Nat) : List Event :=
  match mapFind s.map k with
  | some _ => [.lock, .unlock]
  | none => [.lock, .unlock, .io]

/-- One invocation of a rollback-aware mutator inside a transaction, with its
arguments and the injected external-store faults. -/
inductive Op where
  | add (ident nss : String) (row : BSONObj) (insertFault : Option ErrCode)
  | initNew (ident nss : String) (row : BSONObj) (insertFault createFault : Option ErrCode)
  | imp (nss : String) (row : BSONObj) (dbLockedIX : Bool)
      (insertFault importRSFault importSDIFault : Option ErrCode)
  | rem (k : Nat)
  | ren (k : Nat) (toNss : String) (row : BSONObj) (updateFault : Option ErrCode)

/-- Run one mutator, keeping the resulting state whether the returned status
was a success or a recoverable error; `none` only on a fatal invariant
failure. -/
def stepOp (s : SysState) : Op → Option SysState
  | .add i n r f =>
    match addOrphanedEntry s i n r f with
    | .fatal => none
    | .out _ s' => some s'
  | .initNew i n r f g =>
    match initNewEntry s i n r f g with
    | .fatal => none
    | .out _ s' => some s'
  | .imp n r l f g h =>
    match importCatalogEntry s n r l f g h with
    | .fatal => none
    | .out _ s' => some s'
  | .rem k =>
    match removeEntry s k with
    | .fatal => none
    | .out _ s' => some s'
  | .ren k n r f =>
    match putRenamedEntry s k n r f with
    | .fatal => none
    | .out _ s' => some s'

/-- Run a sequence of mutators inside one transaction. -/
def runOps (s : SysState) : List Op → Option SysState
  | [] => some s
  | op :: ops =>
    match stepOp s op with
    | none => none
    | some s' => runOps s' ops

/-- The entry-index effect of running a list of rollback handlers
front-to-back (the list is most-recently-registered-first, so this is
reverse registration order). -/
def rollbackMapList : List Change → EMap → Option EMap
  | [], m => some m
  | c :: cs, m =>
    match c.rollbackMap m with
    | none => none
    | some m' => rollbackMapList cs m'

theorem mapFind_some_mem (m : EMap) (k : Nat) (e : EntryIdentifier)
    (h : mapFind m k = some e) : (k, e) ∈ m := by
  induction m with
  | nil => simp [mapFind] at h
  | cons p rest ih =>
    obtain ⟨k', v'⟩ := p
    simp only [mapFind] at h
    by_cases hkk : k' = k
    · rw [if_pos hkk] at h
      injection h with h
      subst hkk; subst h
      exact List.mem_cons_self _ _
    · rw [if_neg hkk] at h
      exact List.mem_cons_of_mem _ (ih h)

theorem mapInsert_front (m : EMap) (k : Nat) (v : EntryIdentifier)
    (h : ∀ x ∈ m, k < x.1) : mapInsert m k v = (k, v) :: m := by
  cases m with
  | nil => rfl
  | cons p rest =>
    have hp := h p (List.mem_cons_self p rest)
    simp [mapInsert, hp]

theorem mem_mapInsert (m : EMap) (k : Nat) (v : EntryIdentifier)
    (x : Nat × EntryIdentifier) (h : x ∈ mapInsert m k v) : x = (k, v) ∨ x ∈ m := by
  induction m with
  | nil => simpa [mapInsert] using h
  | cons p rest ih =>
    obtain ⟨k', v'⟩ := p
    by_cases h1 : k < k'
    · simp only [mapInsert, if_pos h1, List.mem_cons] at h
      rcases h with h | h | h
      · exact Or.inl h
      · exact Or.inr (List.mem_cons.mpr (Or.inl h))
      · exact Or.inr (List.mem_cons.mpr (Or.inr h))
    · by_cases h2 : k' = k
      · simp only [mapInsert, if_neg h1, if_pos h2, List.mem_cons] at h
        rcases h with h | h
        · exact Or.inl h
        · exact Or.inr (List.mem_cons.mpr (Or.inr h))
      · simp only [mapInsert, if_neg h1, if_neg h2, List.mem_cons] at h
        rcases h with h | h
        · exact Or.inr (List.mem_cons.mpr (Or.inl h))
        · rcases ih h with h | h
          · exact Or.inl h
          · exact Or.inr (List.mem_cons.mpr (Or.inr h))

theorem WFMap_insert (m : EMap) (k : Nat) (v : EntryIdentifier)
    (hwf : WFMap m) : WFMap (mapInsert m k v) := by
  induction m with
  | nil => simp [WFMap, mapInsert]
  | cons p rest ih =>
    obtain ⟨k', v'⟩ := p
    rw [WFMap, List.pairwise_cons] at hwf
    obtain ⟨hhead, htail⟩ := hwf
    by_cases h1 : k < k'
    · rw [WFMap]
      simp only [mapInsert, if_pos h1]
      rw [List.pairwise_cons]
      refine ⟨?_, ?_⟩
      · intro x hx
        rcases List.mem_cons.mp hx with rfl | hx
        · exact h1
        · exact Nat.lt_trans h1 (hhead x hx)
      · rw [List.pairwise_cons]
        exact ⟨hhead, htail⟩
    · by_cases h2 : k' = k
      · subst h2
        rw [WFMap]
        have hins : mapInsert ((k', v') :: rest) k' v = (k', v) :: rest := by
          simp [mapInsert, h1]
        rw [hins, List.pairwise_cons]
        exact ⟨hhead, htail⟩
      · rw [WFMap]
        simp only [mapInsert, if_neg h1, if_neg h2]
        rw [List.pairwise_cons]
        refine ⟨?_, ih htail⟩
        intro x hx
        rcases mem_mapInsert rest k v x hx with rfl | hx
        · exact Nat.lt_of_le_of_ne (Nat.not_lt.mp h1) h2
        · exact hhead x hx

theorem mapErase_sublist (m : EMap) (k : Nat) : List.Sublist (mapErase m k) m := by
  induction m with
  | nil => simp [mapErase]
  | cons p rest ih =>
    obtain ⟨k', v'⟩ := p
    by_cases h : k' = k
    · simp only [mapErase, if_pos h]
      exact List.sublist_cons_self _ _
    · simp only [mapErase, if_neg h]
      exact List.Sublist.cons₂ _ ih

theorem WFMap_erase (m : EMap) (k : Nat) (hwf : WFMap m) : WFMap (mapErase m k) :=
  List.Pairwise.sublist (mapErase_sublist m k) hwf

theorem mem_mapAssignNss (m : EMap) (k : Nat) (n : String)
    (x : Nat × EntryIdentifier) (hx : x ∈ mapAssignNss m k n) :
    ∃ y ∈ m, x.1 = y.1 := by
  induction m with
  | nil => simp [mapAssignNss] at hx
  | cons p rest ih =>
    obtain ⟨k', v'⟩ := p
    by_cases h : k' = k
    · simp only [mapAssignNss, if_pos h, List.mem_cons] at hx
      rcases hx with rfl | hx
      · exact ⟨(k', v'), List.mem_cons_self _ _, rfl⟩
      · obtain ⟨y, hy, hxy⟩ := ih hx
        exact ⟨y, List.mem_cons_of_mem _ hy, hxy⟩
    · simp only [mapAssignNss, if_neg h, List.mem_cons] at hx
      rcases hx with rfl | hx
      · exact ⟨(k', v'), List.mem_cons_self _ _, rfl⟩
      · obtain ⟨y, hy, hxy⟩ := ih hx
        exact ⟨y, List.mem_cons_of_mem _ hy, hxy⟩

theorem WFMap_assign (m : EMap) (k : Nat) (n : String) (hwf : WFMap m) :
    WFMap (mapAssignNss m k n) := by
  induction m with
  | nil => exact hwf
  | cons p rest ih =>
    obtain ⟨k', v'⟩ := p
    rw [WFMap, List.pairwise_cons] at hwf
    obtain ⟨hhead, htail⟩ := hwf
    have hmem : ∀ x ∈ mapAssignNss rest k n, k' < x.1 := by
      intro x hx
      obtain ⟨y, hy, hxy⟩ := mem_mapAssignNss rest k n x hx
      rw [hxy]
      exact hhead y hy
    by_cases h : k' = k
    · rw [WFMap]
      simp only [mapAssignNss, if_pos h]
      rw [List.pairwise_cons]
      exact ⟨hmem, ih htail⟩
    · rw [WFMap]
      simp only [mapAssignNss, if_neg h]
      rw [List.pairwise_cons]
      exact ⟨hmem, ih htail⟩

theorem mapErase_mapInsert (m : EMap) (k : Nat) (v : EntryIdentifier)
    (h : mapFind m k = none) : mapErase (mapInsert m k v) k = m := by
  induction m with
  | nil => simp [mapInsert, mapErase]
  | cons p rest ih =>
    obtain ⟨k', v'⟩ := p
    simp only [mapFind] at h
    by_cases hkk : k' = k
    · rw [if_pos hkk] at h
      exact absurd h (by simp)
    · rw [if_neg hkk] at h
      by_cases h1 : k < k'
      · simp [mapInsert, h1, mapErase]
      · simp only [mapInsert, if_neg h1, if_neg hkk]
        simp only [mapErase, if_neg hkk]
        rw [ih h]

theorem mapInsert_mapErase (m : EMap) (k : Nat) (e : EntryIdentifier)
    (hwf : WFMap m) (h : mapFind m k = some e) :
    mapInsert (mapErase m k) k e = m := by
  induction m with
  | nil => simp [mapFind] at h
  | cons p rest ih =>
    obtain ⟨k', v'⟩ := p
    rw [WFMap, List.pairwise_cons] at hwf
    obtain ⟨hhead, htail⟩ := hwf
    simp only [mapFind] at h
    by_cases hkk : k' = k
    · rw [if_pos hkk] at h
      injection h with h
      subst hkk; subst h
      simp only [mapErase, if_pos rfl]
      exact mapInsert_front rest _ _ hhead
    · rw [if_neg hkk] at h
      have hk'k : k' < k := hhead _ (mapFind_some_mem rest k e h)
      simp only [mapErase, if_neg hkk]
      simp only [mapInsert, if_neg (Nat.not_lt.mpr (Nat.le_of_lt hk'k)), if_neg hkk]
      rw [ih htail h]

theorem mapFind_mapAssignNss (m : EMap) (k : Nat) (n : String) :
    mapFind (mapAssignNss m k n) k = (mapFind m k).map (fun e => { e with nss := n }) := by
  induction m with
  | nil => rfl
  | cons p rest ih =>
    obtain ⟨k', v'⟩ := p
    by_cases h : k' = k
    · simp only [mapAssignNss, if_pos h, mapFind, Option.map]
    · simp only [mapAssignNss, if_neg h, mapFind, ih]

theorem mapAssignNss_mapAssignNss (m : EMap) (k : Nat) (n : String) (e : EntryIdentifier)
    (hwf : WFMap m) (h : mapFind m k = some e) :
    mapAssignNss (mapAssignNss m k n) k e.nss = m := by
  induction m with
  | nil => simp [mapFind] at h
  | cons p rest ih =>
    obtain ⟨k', v'⟩ := p
    rw [WFMap, List.pairwise_cons] at hwf
    obtain ⟨hhead, htail⟩ := hwf
    simp only [mapFind] at h
    by_cases hkk : k' = k
    · rw [if_pos hkk] at h
      injection h with h
      have hne : ∀ x ∈ rest, x.1 ≠ k := by
        intro x hx
        rw [← hkk]
        exact Nat.ne_of_gt (hhead x hx)
      have htlnil : ∀ (n' : String), mapAssignNss rest k n' = rest := by
        intro n'
        clear hhead htail ih h
        induction rest with
        | nil => rfl
        | cons q qs ihq =>
          obtain ⟨kq, vq⟩ := q
          have hq := hne (kq, vq) (List.mem_cons_self _ _)
          simp only [mapAssignNss, if_neg hq]
          rw [ihq (fun x hx => hne x (List.mem_cons_of_mem _ hx))]
      have step1 : mapAssignNss ((k', v') :: rest) k n
          = (k', { v' with nss := n }) :: rest := by
        simp only [mapAssignNss, if_pos hkk, htlnil]
      have step2 : mapAssignNss ((k', { v' with nss := n }) :: rest) k v'.nss
          = (k', { v' with nss := v'.nss }) :: rest := by
        simp only [mapAssignNss, if_pos hkk, htlnil]
      rw [step1, ← h, step2]
    · rw [if_neg hkk] at h
      simp only [mapAssignNss, if_neg hkk]
      rw [ih htail h]

theorem rollbackMapList_append (a b : List Change) (m : EMap) :
    rollbackMapList (a ++ b) m =
      match rollbackMapList a m with
      | none => none
      | some m' => rollbackMapList b m' := by
  induction a generalizing m with
  | nil => simp [rollbackMapList]
  | cons c cs ih =>
    simp only [List.cons_append, rollbackMapList]
    cases c.rollbackMap m with
    | none => rfl
    | some m1 => exact ih m1

theorem abortChanges_map (cs : List Change) (s : SysState) (m' : EMap)
    (h : rollbackMapList cs s.map = some m') :
    ∃ s', abortChanges cs s = some s' ∧ s'.map = m' := by
  induction cs generalizing s with
  | nil =>
    simp only [rollbackMapList, Option.some.injEq] at h
    exact ⟨s, rfl, h⟩
  | cons c cs ih =>
    simp only [rollbackMapList] at h
    cases hc : c.rollbackMap s.map with
    | none => rw [hc] at h; cases h
    | some m1 =>
      rw [hc] at h
      obtain ⟨s1, hs1, hmap⟩ :=
        ih { s with map := m1, engine := c.rollbackEngine s.engine } h
      refine ⟨s1, ?_, hmap⟩
      simp only [abortChanges, Change.rollback, hc]
      exact hs1

/-- Single-mutator compensation lemma: any non-fatal mutator invocation
extends the registered handler list by a block whose rollback (in reverse
registration order) restores the entry index exactly. -/
theorem stepOp_rollback (s s' : SysState) (op : Op)
    (hwf : WFMap s.map) (h : stepOp s op = some s') :
    WFMap s'.map ∧
      ∃ δ, s'.changes = δ ++ s.changes ∧ rollbackMapList δ s'.map = some s.map := by
  cases op with
  | add i n r f =>
    cases f with
    | some c =>
      simp only [stepOp, addOrphanedEntry, addEntryRaw, insertRecord,
        Option.some.injEq] at h
      subst h
      exact ⟨hwf, [], by simp, rfl⟩
    | none =>
      cases hm : mapFind s.map s.rs.nextId with
      | some e =>
        simp only [stepOp, addOrphanedEntry, addEntryRaw, insertRecord, hm] at h
        exact Option.noConfusion h
      | none =>
        simp only [stepOp, addOrphanedEntry, addEntryRaw, insertRecord, hm,
          Option.some.injEq] at h
        subst h
        refine ⟨WFMap_insert _ _ _ hwf, [.addIdent s.rs.nextId], rfl, ?_⟩
        simp only [rollbackMapList, Change.rollbackMap]
        rw [mapErase_mapInsert _ _ _ hm]
  | initNew i n r f g =>
    cases f with
    | some c =>
      simp only [stepOp, initNewEntry, addEntryRaw, insertRecord,
        Option.some.injEq] at h
      subst h
      exact ⟨hwf, [], by simp, rfl⟩
    | none =>
      cases hm : mapFind s.map s.rs.nextId with
      | some e =>
        simp only [stepOp, initNewEntry, addEntryRaw, insertRecord, hm] at h
        exact Option.noConfusion h
      | none =>
        cases g with
        | some c =>
          simp only [stepOp, initNewEntry, addEntryRaw, insertRecord, hm,
            Option.some.injEq] at h
          subst h
          refine ⟨WFMap_insert _ _ _ hwf, [.addIdent s.rs.nextId], rfl, ?_⟩
          simp only [rollbackMapList, Change.rollbackMap]
          rw [mapErase_mapInsert _ _ _ hm]
        | none =>
          simp only [stepOp, initNewEntry, addEntryRaw, insertRecord, hm,
            Option.some.injEq] at h
          subst h
          refine ⟨WFMap_insert _ _ _ hwf,
            [.dropIdent i, .addIdent s.rs.nextId], rfl, ?_⟩
          simp only [rollbackMapList, Change.rollbackMap]
          rw [mapErase_mapInsert _ _ _ hm]
  | imp n r l f g g2 =>
    cases l with
    | false =>
      simp only [stepOp, importCatalogEntry, importEntryRaw] at h
      exact Option.noConfusion h
    | true =>
      cases hid : elemString (bsonField r "ident") with
      | error c =>
        simp only [stepOp, importCatalogEntry, importEntryRaw, hid,
          Option.some.injEq] at h
        subst h
        exact ⟨hwf, [], by simp, rfl⟩
      | ok ident =>
        cases f with
        | some c =>
          simp only [stepOp, importCatalogEntry, importEntryRaw, hid, insertRecord,
            Option.some.injEq] at h
          subst h
          exact ⟨hwf, [], by simp, rfl⟩
        | none =>
          cases hm : mapFind s.map s.rs.nextId with
          | some e =>
            simp only [stepOp, importCatalogEntry, importEntryRaw, hid,
              insertRecord, hm] at h
            exact Option.noConfusion h
          | none =>
            cases hidx : getIndexIdentsOf r with
            | error c =>
              simp only [stepOp, importCatalogEntry, importEntryRaw, hid,
                insertRecord, hm, hidx, Option.some.injEq] at h
              subst h
              refine ⟨WFMap_insert _ _ _ hwf, [.addIdent s.rs.nextId], rfl, ?_⟩
              simp only [rollbackMapList, Change.rollbackMap]
              rw [mapErase_mapInsert _ _ _ hm]
            | ok idxs =>
              have hrb : rollbackMapList [.dropImport ident idxs, .addIdent s.rs.nextId]
                  (mapInsert s.map s.rs.nextId ⟨s.rs.nextId, ident, n⟩) = some s.map := by
                simp only [rollbackMapList, Change.rollbackMap]
                rw [mapErase_mapInsert _ _ _ hm]
              cases g with
              | some c =>
                simp only [stepOp, importCatalogEntry, importEntryRaw, hid,
                  insertRecord, hm, hidx, Option.some.injEq] at h
                subst h
                exact ⟨WFMap_insert _ _ _ hwf,
                  [.dropImport ident idxs, .addIdent s.rs.nextId], rfl, hrb⟩
              | none =>
                cases g2 with
                | some c =>
                  cases hemp : idxs.isEmpty with
                  | true =>
                    simp only [stepOp, importCatalogEntry, importEntryRaw, hid,
                      insertRecord, hm, hidx, hemp, Option.some.injEq] at h
                    subst h
                    exact ⟨WFMap_insert _ _ _ hwf,
                      [.dropImport ident idxs, .addIdent s.rs.nextId], rfl, hrb⟩
                  | false =>
                    simp only [stepOp, importCatalogEntry, importEntryRaw, hid,
                      insertRecord, hm, hidx, hemp, Option.some.injEq] at h
                    subst h
                    exact ⟨WFMap_insert _ _ _ hwf,
                      [.dropImport ident idxs, .addIdent s.rs.nextId], rfl, hrb⟩
                | none =>
                  simp only [stepOp, importCatalogEntry, importEntryRaw, hid,
                    insertRecord, hm, hidx, Option.some.injEq] at h
                  subst h
                  exact ⟨WFMap_insert _ _ _ hwf,
                    [.dropImport ident idxs, .addIdent s.rs.nextId], rfl, hrb⟩
  | rem k =>
    cases hm : mapFind s.map k with
    | none =>
      simp only [stepOp, removeEntry, hm, Option.some.injEq] at h
      subst h
      exact ⟨hwf, [], by simp, rfl⟩
    | some e =>
      simp only [stepOp, removeEntry, hm, Option.some.injEq] at h
      subst h
      refine ⟨WFMap_erase _ _ hwf, [.reinsert k e], rfl, ?_⟩
      simp only [rollbackMapList, Change.rollbackMap]
      rw [mapInsert_mapErase _ _ _ hwf hm]
  | ren k n r f =>
    cases f with
    | some c =>
      simp only [stepOp, putRenamedEntry] at h
      exact Option.noConfusion h
    | none =>
      cases hm : mapFind s.map k with
      | none =>
        simp only [stepOp, putRenamedEntry, hm] at h
        exact Option.noConfusion h
      | some e =>
        simp only [stepOp, putRenamedEntry, hm, Option.some.injEq] at h
        subst h
        refine ⟨WFMap_assign _ _ _ hwf, [.renameBack k e.nss], rfl, ?_⟩
        simp only [rollbackMapList, Change.rollbackMap, mapFind_mapAssignNss, hm,
          Option.map]
        rw [mapAssignNss_mapAssignNss _ _ _ _ hwf hm]

/-- Multi-mutator compensation: a transaction's worth of non-fatal mutator
invocations leaves a handler block whose reverse-order rollback restores the
entry index to its pre-transaction state. -/
theorem runOps_rollback (ops : List Op) (s s' : SysState)
    (hwf : WFMap s.map) (h : runOps s ops = some s') :
    WFMap s'.map ∧
      ∃ δ, s'.changes = δ ++ s.changes ∧ rollbackMapList δ s'.map = some s.map := by
  induction ops generalizing s with
  | nil =>
    simp only [runOps, Option.some.injEq] at h
    subst h
    exact ⟨hwf, [], by simp, rfl⟩
  | cons op ops ih =>
    simp only [runOps] at h
    cases hstep : stepOp s op with
    | none => rw [hstep] at h; cases h
    | some s1 =>
      rw [hstep] at h
      obtain ⟨hwf1, δ1, hch1, hrb1⟩ := stepOp_rollback s s1 op hwf hstep
      obtain ⟨hwf2, δ2, hch2, hrb2⟩ := ih s1 hwf1 h
      refine ⟨hwf2, δ2 ++ δ1, ?_, ?_⟩
      · rw [hch2, hch1, List.append_assoc]
      · rw [rollbackMapList_append, hrb2]
        exact hrb1

/-- C1: for every sequence of mutators (`_addEntry` via
`addOrphanedEntry`/`initializeNewEntry`, `importCatalogEntry`/`_importEntry`,
`removeEntry`, `putRenamedEntry`) invoked inside a single transaction that is
subsequently aborted, running the registered rollback handlers in reverse
registration order leaves the in-memory entry index exactly equal to its
state before the first mutator of that transaction ran. -/
theorem abort_restores_entry_index (s s' : SysState) (ops : List Op)
    (hwf : WFMap s.map) (h0 : s.changes = []) (h : runOps s ops = some s') :
    ∃ s'', abortChanges s'.changes s' = some s'' ∧ s''.map = s.map := by
  obtain ⟨hwf', δ, hch, hrb⟩ := runOps_rollback ops s s' hwf h
  rw [h0, List.append_nil] at hch
  rw [hch]
  exact abortChanges_map δ s' s.map hrb

def c1S : SysState := ⟨⟨[], 0⟩, [], [], []⟩

def c1Ops : List Op :=
  [.add "i1" "db.c1" [("ident", .str "i1")] none,
   .ren 0 "db.c2" [("ns", .str "db.c2")] none,
   .rem 0]

def c1S' : SysState :=
  ⟨⟨[], 1⟩, [], [],
   [.reinsert 0 ⟨0, "i1", "db.c2"⟩, .renameBack 0 "db.c1", .addIdent 0]⟩

theorem abort_restores_entry_index_witness :
    ∃ s'', abortChanges c1S'.changes c1S' = some s'' ∧ s''.map = c1S.map :=
  abort_restores_entry_index c1S c1S' c1Ops (by decide) rfl (by rfl)

/-- C2: `_addEntry` (reached from `addOrphanedEntry`/`initializeNewEntry`)
first inserts the row into the persisted store obtaining a new catalogId; if
the insert fails the error status is returned and the entry index is left
unchanged; on success the EntryIdentifier (catalogId, ident, namespace) is
inserted into the entry index and a rollback handler is registered whose
effect is only to erase that catalogId from the entry index, with no
compensating write to the persisted store. -/
theorem addEntry_contract (s : SysState) (ident nss : String) (row : BSONObj)
    (c : ErrCode) (h : mapFind s.map s.rs.nextId = none) :
    addEntryRaw s ident nss row (some c) = .out (.error c) s ∧
    addEntryRaw s ident nss row none =
      .out (.ok ⟨s.rs.nextId, ident, nss⟩)
        { s with rs := ⟨s.rs.records ++ [(s.rs.nextId, row)], s.rs.nextId + 1⟩,
                 map := mapInsert s.map s.rs.nextId ⟨s.rs.nextId, ident, nss⟩,
                 changes := .addIdent s.rs.nextId :: s.changes } ∧
    (∀ f, addOrphanedEntry s ident nss row f = addEntryRaw s ident nss row f) ∧
    (∀ t : SysState, Change.rollback (.addIdent s.rs.nextId) t =
      some { t with map := mapErase t.map s.rs.nextId }) := by
  refine ⟨rfl, ?_, fun f => rfl, fun t => rfl⟩
  simp only [addEntryRaw, insertRecord, h]

def c2S : SysState := ⟨⟨[], 0⟩, [], [], []⟩

theorem addEntry_contract_witness :
    addEntryRaw c2S "i1" "db.c" [] (some .writeConflict) =
      .out (.error .writeConflict) c2S ∧
    addEntryRaw c2S "i1" "db.c" [] none =
      .out (.ok ⟨0, "i1", "db.c"⟩)
        { c2S with rs := ⟨[(0, [])], 1⟩, map := [(0, ⟨0, "i1", "db.c"⟩)],
                   changes := [.addIdent 0] } ∧
    (∀ f, addOrphanedEntry c2S "i1" "db.c" [] f = addEntryRaw c2S "i1" "db.c" [] f) ∧
    (∀ t : SysState, Change.rollback (.addIdent 0) t =
      some { t with map := mapErase t.map 0 }) :=
  addEntry_contract c2S "i1" "db.c" [] .writeConflict rfl

/-- C3: for a catalogId absent from the entry index, `removeEntry` returns a
typed NamespaceNotFound error leaving the store and the index unchanged; for
a present catalogId it deletes the persisted row, erases the index entry,
returns success, registers a rollback handler re-inserting the identical
captured EntryIdentifier under the same catalogId, and that handler restores
the index exactly. -/
theorem removeEntry_contract (s : SysState) (k : Nat) (e : EntryIdentifier)
    (hwf : WFMap s.map) :
    (mapFind s.map k = none → removeEntry s k = .out (.error .namespaceNotFound) s) ∧
    (mapFind s.map k = some e →
      removeEntry s k = .out (.ok ())
        { s with rs := deleteRecord s.rs k, map := mapErase s.map k,
                 changes := .reinsert k e :: s.changes } ∧
      Change.rollbackMap (.reinsert k e) (mapErase s.map k) = some s.map) := by
  constructor
  · intro h
    simp only [removeEntry, h]
  · intro h
    refine ⟨by simp only [removeEntry, h], ?_⟩
    simp only [Change.rollbackMap]
    rw [mapInsert_mapErase _ _ _ hwf h]

def c3S : SysState := ⟨⟨[(3, [])], 4⟩, [(3, ⟨3, "i", "db.c"⟩)], [], []⟩

theorem removeEntry_contract_witness :
    removeEntry c3S 7 = .out (.error .namespaceNotFound) c3S ∧
    removeEntry c3S 3 = .out (.ok ())
      { c3S with rs := ⟨[], 4⟩, map := [], changes := [.reinsert 3 ⟨3, "i", "db.c"⟩] } ∧
    Change.rollbackMap (.reinsert 3 ⟨3, "i", "db.c"⟩) [] = some c3S.map :=
  ⟨(removeEntry_contract c3S 7 ⟨3, "i", "db.c"⟩ (by decide)).1 rfl,
   ((removeEntry_contract c3S 3 ⟨3, "i", "db.c"⟩ (by decide)).2 rfl).1,
   ((removeEntry_contract c3S 3 ⟨3, "i", "db.c"⟩ (by decide)).2 rfl).2⟩

/-- C4: each invariant-violation condition is a fatal invariant failure, not
a returned recoverable error: inserting an already-present catalogId into the
entry index (`_addEntry` or `_importEntry`), calling `getEntry` with an
absent catalogId, and calling `_importEntry` without the database locked in
MODE_IX. -/
theorem invariant_violations_fatal (s : SysState) (ident nss collIdent : String)
    (row : BSONObj) (k : Nat) (e : EntryIdentifier) (f : Option ErrCode) :
    (mapFind s.map s.rs.nextId = some e → addEntryRaw s ident nss row none = .fatal) ∧
    (mapFind s.map s.rs.nextId = some e →
      bsonField row "ident" = some (.str collIdent) →
      importEntryRaw s nss row true none = .fatal) ∧
    (mapFind s.map k = none → getEntry s k = none) ∧
    importEntryRaw s nss row false f = .fatal := by
  refine ⟨?_, ?_, ?_, rfl⟩
  · intro h
    simp only [addEntryRaw, insertRecord, h]
  · intro h hident
    simp only [importEntryRaw, hident, elemString, insertRecord, h]
  · intro h
    simp only [getEntry, h]

def c4S : SysState := ⟨⟨[], 0⟩, [(0, ⟨0, "i", "db.c"⟩)], [], []⟩

theorem invariant_violations_fatal_witness :
    addEntryRaw c4S "i2" "db.d" [] none = .fatal ∧
    importEntryRaw c4S "db.d" [("ident", BSONValue.str "i2")] true none = .fatal ∧
    getEntry c4S 5 = none ∧
    importEntryRaw c4S "db.d" [("ident", BSONValue.str "i2")] false none = .fatal :=
  have t := invariant_violations_fatal c4S "i2" "db.d" "i2"
    [("ident", BSONValue.str "i2")] 5 ⟨0, "i", "db.c"⟩ none
  ⟨t.1 rfl, t.2.1 rfl rfl, t.2.2.1 rfl, t.2.2.2⟩

def c5EmptyRowS : SysState := ⟨⟨[(0, [])], 1⟩, [], [], []⟩

/-- C5 counterexample: the claim's "fatal if and only if the catalogId is in
neither the index nor the store" fails when the store holds a row whose
document is empty: `_findRawEntry` returns the empty `BSONObj` both for a
missing record and for an empty one, so `getNSSFromCatalog` reaches the
`tassert` (fatal) although the catalogId IS in the store. -/
theorem getNSS_fatal_despite_store_row :
    (seekExact c5EmptyRowS.rs 0).isSome = true ∧
    getNSSFromCatalog c5EmptyRowS 0 = .fatal :=
  ⟨rfl, rfl⟩

/-- C5 (amended): `getNSSFromCatalog` returns the cached namespace on an
entry-index hit; on a miss it point-reads the store at the current snapshot
and returns the parsed `ns` field of the row when found; and it is fatal iff
the catalogId is absent from the index and the store read produces the empty
document (no row, or an empty row). -/
theorem getNSS_contract (s : SysState) (k : Nat) :
    (∀ e, mapFind s.map k = some e → getNSSFromCatalog s k = .ok e.nss) ∧
    (∀ row ns, mapFind s.map k = none → seekExact s.rs k = some row →
      bsonField row "ns" = some (.str ns) → getNSSFromCatalog s k = .ok ns) ∧
    (getNSSFromCatalog s k = .fatal ↔
      mapFind s.map k = none ∧ findRawEntry s.rs k = []) := by
  refine ⟨?_, ?_, ?_⟩
  · intro e h
    simp only [getNSSFromCatalog, h]
  · intro row ns h hseek hns
    cases row with
    | nil => simp [bsonField] at hns
    | cons x xs =>
      simp only [getNSSFromCatalog, h, findRawEntry, hseek, hns, elemString,
        List.isEmpty_cons, Bool.false_eq_true, if_false]
  · cases hm : mapFind s.map k with
    | some e => simp [getNSSFromCatalog, hm]
    | none =>
      cases hrow : findRawEntry s.rs k with
      | nil => simp [getNSSFromCatalog, hm, hrow]
      | cons x xs =>
        cases helem : elemString (bsonField (x :: xs) "ns") with
        | ok ns => simp [getNSSFromCatalog, hm, hrow, helem]
        | error c => simp [getNSSFromCatalog, hm, hrow, helem]

def c5S : SysState :=
  ⟨⟨[(0, [("ns", .str "db.old")])], 2⟩, [(1, ⟨1, "i", "db.c"⟩)], [], []⟩

theorem getNSS_contract_witness :
    getNSSFromCatalog c5S 1 = .ok "db.c" ∧ getNSSFromCatalog c5S 0 = .ok "db.old" :=
  ⟨(getNSS_contract c5S 1).1 ⟨1, "i", "db.c"⟩ rfl,
   (getNSS_contract c5S 0).2.1 [("ns", .str "db.old")] "db.old" rfl rfl rfl⟩

/-- C6: for a catalogId present in the entry index, `putRenamedEntry`
overwrites the persisted row with the supplied renamed row, updates only the
namespace field of the cached EntryIdentifier (catalogId and ident are
unchanged), returns success, and registers a rollback handler that restores
the namespace field to its value immediately before the rename (restoring
the index exactly). -/
theorem putRenamedEntry_contract (s : SysState) (k : Nat) (toNss : String)
    (row : BSONObj) (e : EntryIdentifier) (hwf : WFMap s.map)
    (h : mapFind s.map k = some e) :
    putRenamedEntry s k toNss row none =
      .out (.ok ())
        { s with rs := updateRecord s.rs k row, map := mapAssignNss s.map k toNss,
                 changes := .renameBack k e.nss :: s.changes } ∧
    mapFind (mapAssignNss s.map k toNss) k = some ⟨e.catalogId, e.ident, toNss⟩ ∧
    Change.rollbackMap (.renameBack k e.nss) (mapAssignNss s.map k toNss) =
      some s.map := by
  refine ⟨by simp only [putRenamedEntry, h], ?_, ?_⟩
  · rw [mapFind_mapAssignNss, h]
    rfl
  · simp only [Change.rollbackMap, mapFind_mapAssignNss, h, Option.map]
    rw [mapAssignNss_mapAssignNss _ _ _ _ hwf h]

def c6S : SysState :=
  ⟨⟨[(0, [("ns", .str "db.a")])], 1⟩, [(0, ⟨0, "i", "db.a"⟩)], [], []⟩

theorem putRenamedEntry_contract_witness :
    putRenamedEntry c6S 0 "db.b" [("ns", BSONValue.str "db.b")] none =
      .out (.ok ())
        { c6S with rs := ⟨[(0, [("ns", BSONValue.str "db.b")])], 1⟩,
                   map := [(0, ⟨0, "i", "db.b"⟩)],
                   changes := [.renameBack 0 "db.a"] } ∧
    mapFind [(0, (⟨0, "i", "db.b"⟩ : EntryIdentifier))] 0 = some ⟨0, "i", "db.b"⟩ ∧
    Change.rollbackMap (.renameBack 0 "db.a") [(0, ⟨0, "i", "db.b"⟩)] = some c6S.map :=
  putRenamedEntry_contract c6S 0 "db.b" [("ns", BSONValue.str "db.b")]
    ⟨0, "i", "db.a"⟩ (by decide) rfl

def c7S : SysState := ⟨⟨[(0, [])], 1⟩, [(0, ⟨0, "i", "db.c"⟩)], [], []⟩

/-- C7 counterexample: `removeEntry` acquires `_catalogIdToEntryMapLock` at
function entry and, on the present-key path, calls `_rs->deleteRecord` —
persisted-store I/O — before the lock scope closes
(`mdb_catalog.cpp:279`, `mdb_catalog.cpp:296`), falsifying "no
persisted-store I/O is performed while that mutex is held". -/
theorem removeEntry_io_under_lock :
    noIOWhileLocked (removeEntryEvents c7S 0) = false := rfl

/-- C7 (amended): every mutating catalog operation except `removeEntry`
holds the entry-index mutex only across the pure in-memory change and
performs no persisted-store I/O while holding it (`_addEntry`,
`_importEntry`, `putRenamedEntry`, and the readers `getEntry`,
`getNSSFromCatalog`); `removeEntry`, however, deletes the persisted row
while holding the mutex whenever the catalogId is present. -/
theorem mutex_io_discipline (s : SysState) (k : Nat) (row : BSONObj)
    (l : Bool) (f : Option ErrCode) (h : (mapFind s.map k).isSome = true) :
    noIOWhileLocked (addEntryEvents s f) = true ∧
    noIOWhileLocked (importEntryEvents s row l f) = true ∧
    noIOWhileLocked (putRenamedEntryEvents s k f) = true ∧
    noIOWhileLocked (getEntryEvents s k) = true ∧
    noIOWhileLocked (getNSSEvents s k) = true ∧
    noIOWhileLocked (removeEntryEvents s k) = false := by
  obtain ⟨e, he⟩ := Option.isSome_iff_exists.mp h
  have hadd : noIOWhileLocked (addEntryEvents s f) = true := by
    cases f with
    | some c => rfl
    | none =>
      cases hm : mapFind s.map s.rs.nextId with
      | some e2 =>
        simp [addEntryEvents, hm, noIOWhileLocked, noIOWhileLockedFrom]
      | none =>
        simp [addEntryEvents, hm, noIOWhileLocked, noIOWhileLockedFrom]
  refine ⟨hadd, ?_, ?_, ?_, ?_, ?_⟩
  · cases l with
    | false => rfl
    | true =>
      cases hid : elemString (bsonField row "ident") with
      | error c =>
        have : importEntryEvents s row true f = [] := by
          simp [importEntryEvents, hid]
        rw [this]
        rfl
      | ok i => simpa [importEntryEvents, hid] using hadd
  · cases f with
    | some c => rfl
    | none =>
      cases hm : mapFind s.map k with
      | some e2 =>
        simp [putRenamedEntryEvents, hm, noIOWhileLocked, noIOWhileLockedFrom]
      | none =>
        simp [putRenamedEntryEvents, hm, noIOWhileLocked, noIOWhileLockedFrom]
  · simp [getEntryEvents, he, noIOWhileLocked, noIOWhileLockedFrom]
  · simp [getNSSEvents, he, noIOWhileLocked, noIOWhileLockedFrom]
  · simp [removeEntryEvents, he, noIOWhileLocked, noIOWhileLockedFrom]

def c7W : SysState := ⟨⟨[(2, [])], 3⟩, [(2, ⟨2, "j", "db.w"⟩)], [], []⟩

theorem mutex_io_discipline_witness :
    noIOWhileLocked (addEntryEvents c7W none) = true ∧
    noIOWhileLocked (importEntryEvents c7W [("ident", .str "j2")] true none) = true ∧
    noIOWhileLocked (putRenamedEntryEvents c7W 2 none) = true ∧
    noIOWhileLocked (getEntryEvents c7W 2) = true ∧
    noIOWhileLocked (getNSSEvents c7W 2) = true ∧
    noIOWhileLocked (removeEntryEvents c7W 2) = false :=
  mutex_io_discipline c7W 2 [("ident", .str "j2")] true none rfl

theorem mem_foldl_filter (idxs : List String) (acc : List String) (x : String)
    (h : x ∈ idxs.foldl (fun e j => e.filter (· ≠ j)) acc) : x ∈ acc ∧ x ∉ idxs := by
  induction idxs generalizing acc with
  | nil =>
    refine ⟨by simpa using h, by simp⟩
  | cons j rest ih =>
    simp only [List.foldl_cons] at h
    obtain ⟨hacc, hrest⟩ := ih _ h
    rw [List.mem_filter] at hacc
    obtain ⟨hmem, hne⟩ := hacc
    refine ⟨hmem, ?_⟩
    simp only [List.mem_cons, not_or]
    exact ⟨by simpa using hne, hrest⟩

/-- C8: a successful (or post-registration failing) `importCatalogEntry`
registers — besides the `AddIdentChange` that removes the cache entry — a
rollback handler that on abort drops the physical storage for the imported
collection ident and for every index ident enumerated from the row's
`idxIdent` mapping at import time. -/
theorem importCatalogEntry_rollback_drops_idents (s : SysState)
    (nss collIdent : String) (row : BSONObj) (idxIdents : List String)
    (rsF sdiF : Option ErrCode) (r : Except ErrCode Nat) (s' : SysState)
    (hident : bsonField row "ident" = some (.str collIdent))
    (hdup : mapFind s.map s.rs.nextId = none)
    (hidx : getIndexIdentsOf row = .ok idxIdents)
    (h : importCatalogEntry s nss row true none rsF sdiF = .out r s') :
    s'.changes = .dropImport collIdent idxIdents :: .addIdent s.rs.nextId :: s.changes ∧
    (∀ eng x, (x = collIdent ∨ x ∈ idxIdents) →
      x ∉ Change.rollbackEngine (.dropImport collIdent idxIdents) eng) := by
  constructor
  · simp only [importCatalogEntry, importEntryRaw, hident, elemString,
      insertRecord, hdup, hidx] at h
    cases rsF with
    | some c =>
      cases h
      rfl
    | none =>
      cases sdiF with
      | some c =>
        cases hemp : idxIdents.isEmpty with
        | true =>
          rw [hemp] at h
          cases h
          rfl
        | false =>
          rw [hemp] at h
          cases h
          rfl
      | none =>
        cases h
        rfl
  · intro eng x hx hmem
    simp only [Change.rollbackEngine] at hmem
    obtain ⟨hacc, hnotin⟩ := mem_foldl_filter idxIdents (eng.filter (· ≠ collIdent)) x hmem
    rcases hx with rfl | hx
    · rw [List.mem_filter] at hacc
      simp at hacc
    · exact hnotin hx

def c8Row : BSONObj :=
  [("ident", .str "coll-i"),
   ("idxIdent", .obj [("x_1", .str "idxA"), ("y_1", .str "idxB")])]

def c8S : SysState := ⟨⟨[], 0⟩, [], [], []⟩

def c8S' : SysState :=
  ⟨⟨[(0, c8Row)], 1⟩, [(0, ⟨0, "coll-i", "db.c"⟩)],
   ["idxB", "idxA", "coll-i"],
   [.dropImport "coll-i" ["idxA", "idxB"], .addIdent 0]⟩

theorem importCatalogEntry_rollback_drops_idents_witness :
    c8S'.changes = .dropImport "coll-i" ["idxA", "idxB"] :: .addIdent 0 :: c8S.changes ∧
    (∀ eng x, (x = "coll-i" ∨ x ∈ ["idxA", "idxB"]) →
      x ∉ Change.rollbackEngine (.dropImport "coll-i" ["idxA", "idxB"]) eng) :=
  importCatalogEntry_rollback_drops_idents c8S "db.c" "coll-i" c8Row
    ["idxA", "idxB"] none none (.ok 0) c8S' rfl rfl rfl rfl

theorem identStrings_all_str (idx : List (String × BSONValue)) (vals : List String)
    (h : idx.map Prod.snd = vals.map BSONValue.str) :
    identStrings idx = .ok vals := by
  induction idx generalizing vals with
  | nil =>
    cases vals with
    | nil => rfl
    | cons v vs => simp at h
  | cons p rest ih =>
    cases vals with
    | nil => simp at h
    | cons v vs =>
      simp only [List.map_cons, List.cons.injEq] at h
      obtain ⟨h1, h2⟩ := h
      simp only [identStrings, h1, elemString, ih vs h2]

/-- C9: for a catalogId whose persisted row contains an `idxIdent` object
whose values are ident strings, `getIndexIdents` returns those idents in the
order the fields appear in the row; for a row with no `idxIdent` field it
returns the empty sequence. -/
theorem getIndexIdents_contract (s : SysState) (k : Nat) (row : BSONObj)
    (idx : List (String × BSONValue)) (vals : List String)
    (hseek : seekExact s.rs k = some row) :
    (bsonField row "idxIdent" = none → getIndexIdents s k = .ok []) ∧
    (bsonField row "idxIdent" = some (.obj idx) →
      idx.map Prod.snd = vals.map BSONValue.str →
      getIndexIdents s k = .ok vals) := by
  constructor
  · intro h
    simp only [getIndexIdents, getIndexIdentsOf, findRawEntry, hseek, h]
  · intro h hvals
    simp only [getIndexIdents, getIndexIdentsOf, findRawEntry, hseek, h, elemObj]
    exact identStrings_all_str idx vals hvals

def c9S : SysState :=
  ⟨⟨[(0, [("ident", .str "c1"),
          ("idxIdent", .obj [("x_1", .str "idxA"), ("y_1", .str "idxB")])]),
     (1, [("ident", .str "c2")])], 2⟩, [], [], []⟩

theorem getIndexIdents_contract_witness :
    getIndexIdents c9S 0 = .ok ["idxA", "idxB"] ∧ getIndexIdents c9S 1 = .ok [] :=
  ⟨(getIndexIdents_contract c9S 0
      [("ident", .str "c1"),
       ("idxIdent", .obj [("x_1", .str "idxA"), ("y_1", .str "idxB")])]
      [("x_1", .str "idxA"), ("y_1", .str "idxB")] ["idxA", "idxB"] rfl).2 rfl rfl,
   (getIndexIdents_contract c9S 1 [("ident", .str "c2")] [] [] rfl).1 rfl⟩

/-- C10: `getIndexIdent` fails (the `BSONElement::Obj()` conversion throws)
whenever the persisted row is missing or lacks an `idxIdent` object field,
rather than returning an empty string; and it returns an ident string only
when the row's `idxIdent` object exists and is either empty (yielding the
empty string) or maps the named index to that string. -/
theorem getIndexIdent_contract (s : SysState) (k : Nat) (idxName str : String) :
    (isObjElem (bsonField (findRawEntry s.rs k) "idxIdent") = false →
      getIndexIdent s k idxName = .error .typeMismatch) ∧
    (getIndexIdent s k idxName = .ok str →
      ∃ o, bsonField (findRawEntry s.rs k) "idxIdent" = some (.obj o) ∧
        ((o = [] ∧ str = "") ∨ bsonField o idxName = some (.str str))) := by
  constructor
  · intro h
    unfold getIndexIdent
    cases he : bsonField (findRawEntry s.rs k) "idxIdent" with
    | none => rfl
    | some v =>
      cases v with
      | str s2 => rfl
      | obj o =>
        rw [he] at h
        simp [isObjElem] at h
      | other => rfl
  · intro h
    unfold getIndexIdent at h
    cases he : bsonField (findRawEntry s.rs k) "idxIdent" with
    | none =>
      rw [he] at h
      exact Except.noConfusion h
    | some v =>
      rw [he] at h
      cases v with
      | str s2 => exact Except.noConfusion h
      | other => exact Except.noConfusion h
      | obj o =>
        refine ⟨o, rfl, ?_⟩
        cases o with
        | nil =>
          simp only [elemObj, List.isEmpty_nil, if_true] at h
          injection h with h
          exact Or.inl ⟨rfl, h.symm⟩
        | cons x xs =>
          simp only [elemObj, List.isEmpty_cons, Bool.false_eq_true, if_false] at h
          cases hf : bsonField (x :: xs) idxName with
          | none =>
            rw [hf] at h
            exact Except.noConfusion h
          | some w =>
            rw [hf] at h
            cases w with
            | str s3 =>
              simp only [elemString] at h
              injection h with h
              subst h
              exact Or.inr rfl
            | obj o2 => exact Except.noConfusion h
            | other => exact Except.noConfusion h

def c10S : SysState :=
  ⟨⟨[(0, [("ident", .str "c")]),
     (1, [("ident", .str "c2"), ("idxIdent", .obj [("x_1", .str "idxA")])])], 2⟩,
   [], [], []⟩

theorem getIndexIdent_contract_witness :
    getIndexIdent c10S 0 "x_1" = .error .typeMismatch ∧
    (∃ o, bsonField (findRawEntry c10S.rs 1) "idxIdent" = some (.obj o) ∧
      ((o = [] ∧ "idxA" = "") ∨ bsonField o "x_1" = some (.str "idxA"))) :=
  ⟨(getIndexIdent_contract c10S 0 "x_1" "").1 rfl,
   (getIndexIdent_contract c10S 1 "x_1" "idxA").2 rfl⟩
